import Mathlib

/-!
Verification of the raster-to-DXF contour pipeline of `snagtodxf`
(`src/app/api/convert/route.ts`).

The repository packs three revisions of `route.ts` into a single file,
separated by document markers.  Where a function exists in several revisions
the first revision's definition keeps the source name and later revisions get
a suffix (`V3` for the third revision), with a comment naming the source
lines.

Modelling conventions:
* JavaScript numbers are embedded as exact rationals (`ℚ`).
* `Math.sqrt` is never evaluated by the pipeline except to be compared with
  another number, so square roots are kept symbolic: a distance value is
  either a plain number (`DistVal.num q`) or an unevaluated square root
  (`DistVal.sqrtOf q`).  The comparisons the code performs on such values are
  decidable because `Real.sqrt` is strictly monotone on nonnegative numbers.
* Comparisons of the form `Math.sqrt d < c` with a nonnegative constant `c`
  are embedded as `d < c * c`.
* The JavaScript `Set` of strings `"x,y"` used as a visited set is embedded
  as a list of integer pairs; the string encoding of a pair is injective, so
  membership agrees.
-/

namespace SnagToDxf

/-- A 2-D point, `[x, y]` in the source. -/
abbrev Point := ℚ × ℚ

/-! ## Distance values

`getPerpendicularDistance` (route.ts lines 610–638) returns `Math.sqrt(A*A +
B*B)` in its zero-length guard branch and an exact squared distance
`dx*dx + dy*dy` otherwise.  The square root is represented symbolically. -/

/-- A JavaScript number that is either a plain rational or the square root of
a (nonnegative) rational, kept unevaluated. -/
inductive DistVal where
  | num (q : ℚ)
  | sqrtOf (q : ℚ)
deriving DecidableEq, Repr

/-- The JavaScript `>` comparison on the numbers represented by two
`DistVal`s.  The `sqrtOf` arguments that arise in the program are sums of
squares, hence nonnegative, and for nonnegative `u`, `Real.sqrt u > v` iff
`v < 0 ∨ v * v < u`, and `u > Real.sqrt v` iff `0 < u ∧ v < u * u`. -/
def distGt : DistVal → DistVal → Bool
  | .num u, .num v => v < u
  | .num u, .sqrtOf v => 0 < u ∧ v < u * u
  | .sqrtOf u, .num v => v < 0 ∨ v * v < u
  | .sqrtOf u, .sqrtOf v => v < u

/-! ## Perpendicular distance (route.ts lines 610–638, inside
`simplifyContour`) -/

/-- Function `getPerpendicularDistance(point, lineStart, lineEnd)`: squared distance
from `point` to the segment `lineStart–lineEnd`, except that the zero-length
guard branch returns the (non-squared) `Math.sqrt(A*A + B*B)`. -/
def getPerpendicularDistance (point lineStart lineEnd : Point) : DistVal :=
  let A := point.1 - lineStart.1
  let B := point.2 - lineStart.2
  let C := lineEnd.1 - lineStart.1
  let D := lineEnd.2 - lineStart.2
  let dot := A * C + B * D
  let lenSq := C * C + D * D
  if lenSq = 0 then .sqrtOf (A * A + B * B)
  else
    let param := dot / lenSq
    let xx := if param < 0 then lineStart.1
      else if 1 < param then lineEnd.1
      else lineStart.1 + param * C
    let yy := if param < 0 then lineStart.2
      else if 1 < param then lineEnd.2
      else lineStart.2 + param * D
    let dx := point.1 - xx
    let dy := point.2 - yy
    .num (dx * dx + dy * dy)

/-- Division that signals a zero denominator instead of evaluating.  Used to
state that the source division `dot / lenSq` is never a division by zero. -/
def checkedDiv (a b : ℚ) : Option ℚ :=
  if b = 0 then none else some (a / b)

/-- Variant of `getPerpendicularDistance` with its single division routed through
`checkedDiv`; otherwise identical to `getPerpendicularDistance`. -/
def getPerpendicularDistanceChecked (point lineStart lineEnd : Point) :
    Option DistVal :=
  let A := point.1 - lineStart.1
  let B := point.2 - lineStart.2
  let C := lineEnd.1 - lineStart.1
  let D := lineEnd.2 - lineStart.2
  let dot := A * C + B * D
  let lenSq := C * C + D * D
  if lenSq = 0 then some (.sqrtOf (A * A + B * B))
  else
    match checkedDiv dot lenSq with
    | none => none
    | some param =>
      let xx := if param < 0 then lineStart.1
        else if 1 < param then lineEnd.1
        else lineStart.1 + param * C
      let yy := if param < 0 then lineStart.2
        else if 1 < param then lineEnd.2
        else lineStart.2 + param * D
      let dx := point.1 - xx
      let dy := point.2 - yy
      some (.num (dx * dx + dy * dy))

/-! ## Douglas–Peucker simplification (route.ts lines 604–664) -/

/-- The scan of route.ts lines 643–652: running maximum of
`getPerpendicularDistance(points[i], points[0], points[last])` for
`i = 1 .. points.length - 2`, returning `(maxDistance, maxIndex)` with
`maxDistance` initialised to `0` and `maxIndex` to `0`. -/
def maxDistScan (points : List Point) : DistVal × Nat :=
  let a := points.headD (0, 0)
  let b := points.getLastD (0, 0)
  (List.range' 1 (points.length - 2)).foldl
    (fun acc i =>
      let d := getPerpendicularDistance (points.getD i (0, 0)) a b
      if distGt d acc.1 then (d, i) else acc)
    (.num 0, 0)

/-- Function `douglasPeucker(points, tolerance)` (route.ts lines 640–661).  The source
recursion always shrinks the list when the tolerance is positive (the only
way it is called); the Lean embedding makes this explicit with a fuel
argument, instantiated with `points.length` which is enough fuel for every
positive tolerance.  `points.slice(0, maxIndex+1)` is `take (maxIndex+1)`,
`points.slice(maxIndex)` is `drop maxIndex`, `left.slice(0, -1)` is
`dropLast`. -/
def douglasPeucker (fuel : Nat) (points : List Point) (tolerance : ℚ) :
    List Point :=
  match fuel with
  | 0 => points
  | fuel + 1 =>
    if points.length ≤ 2 then points
    else
      let m := maxDistScan points
      if distGt m.1 (.num tolerance) then
        let left := douglasPeucker fuel (points.take (m.2 + 1)) tolerance
        let right := douglasPeucker fuel (points.drop m.2) tolerance
        left.dropLast ++ right
      else
        [points.headD (0, 0), points.getLastD (0, 0)]

/-- The tolerance actually handed to `douglasPeucker` by `simplifyContour`
(route.ts line 608): `Math.max(tolerance * 0.3, 0.05)`. -/
def scaledToleranceOf (tolerance : ℚ) : ℚ :=
  max (tolerance * (3 / 10)) (1 / 20)

/-- Function `simplifyContour(contour, tolerance)` (route.ts lines 604–664). -/
def simplifyContour (contour : List Point) (tolerance : ℚ) : List Point :=
  if contour.length ≤ 2 then contour
  else douglasPeucker contour.length contour (scaledToleranceOf tolerance)

/-- The simplification stage as invoked by `convertRasterToDxf` (route.ts
line 578): `simplify ? simplifyContour(smoothedPath, simplify * 0.3) :
smoothedPath` — a falsy (zero) `simplify` skips the stage entirely. -/
def simplifyStage (simplify : ℚ) (path : List Point) : List Point :=
  if simplify = 0 then path else simplifyContour path (simplify * (3 / 10))

/-! ## Adaptive point reduction (route.ts lines 3991–4018, third
revision) -/

/-- The `targetPoints` computation of route.ts lines 3995–3997:
`min(200, max(max(50, floor(n * 0.1)), floor(n * (1 - reductionFactor))))`
for an input of `n` points. -/
def aprTarget (n : ℕ) (reductionFactor : ℚ) : ℤ :=
  min 200 (max (max 50 ⌊(n : ℚ) * (1 / 10)⌋) ⌊(n : ℚ) * (1 - reductionFactor)⌋)

/-- Function `adaptivePointReduction(contour, reductionFactor)` (route.ts lines
3991–4018): uniform resampling down to `targetPoints` points, keeping the
first and last point; inputs of at most 3 points, or already at most
`targetPoints` points, are returned unchanged. -/
def adaptivePointReduction (contour : List Point) (reductionFactor : ℚ) :
    List Point :=
  if contour.length ≤ 3 then contour
  else
    let targetPoints : ℤ := aprTarget contour.length reductionFactor
    if (contour.length : ℤ) ≤ targetPoints then contour
    else
      let tp := targetPoints.toNat
      let step : ℚ := (contour.length : ℚ) / (tp : ℚ)
      (contour.headD (0, 0) ::
        (List.range' 1 (tp - 2)).filterMap fun (i : ℕ) =>
          if 0 < ⌊(i : ℚ) * step⌋ ∧
              ⌊(i : ℚ) * step⌋ < (contour.length : ℤ) - 1 then
            some (contour.getD (⌊(i : ℚ) * step⌋).toNat (0, 0))
          else none)
      ++ [contour.getLastD (0, 0)]

/-! ## Scaler (route.ts lines 331–375, first revision) -/

/-- Function `scaleContour(contour, targetDimensionInches, imageDimensionPixels, _)`
(route.ts lines 331–375; the `dimensionControl` argument is only used for
logging and is dropped).  Scales every coordinate by
`targetDimensionInches / imageDimensionPixels`. -/
def scaleContour (contour : List Point)
    (targetDimensionInches imageDimensionPixels : ℚ) : List Point :=
  if contour = [] then contour
  else
    let scaleFactor := targetDimensionInches / imageDimensionPixels
    contour.map (fun p => (p.1 * scaleFactor, p.2 * scaleFactor))

/-- The `dimensionControl` setting: which axis `targetDimension`
constrains. -/
inductive DimAxis where
  | width
  | height
deriving DecidableEq, Repr

/-- The call of `scaleContour` in `convertRasterToDxf` (route.ts line 587):
`scaleContour(path, dimensionControl === 'width' ? width : height,
dimensionControl === 'width' ? imageWidth : imageHeight, dimensionControl)`. -/
def scaleCallSite (w h : ℚ) (imageWidth imageHeight : ℕ) (axis : DimAxis)
    (contour : List Point) : List Point :=
  scaleContour contour
    (match axis with | .width => w | .height => h)
    (match axis with | .width => (imageWidth : ℚ) | .height => (imageHeight : ℚ))

/-! ## Boundary tracer (route.ts lines 157–262, `findSingleOuterBoundary`)

The grid is the `pixels: number[][]` array built by `findContours`
(row-major, `pixels[y][x]` is `1` for a foreground pixel and `0`
otherwise). -/

/-- A binary pixel grid, `pixels[y][x]`. -/
abbrev PixelGrid := List (List Nat)

/-- Cell access `pixels[y][x]`.  Only read after a bounds check in the source, so the
out-of-range default is irrelevant. -/
def pixAt (pixels : PixelGrid) (x y : Int) : Nat :=
  (pixels.getD y.toNat []).getD x.toNat 0

/-- The 8 compass offsets of route.ts lines 183–192, in scan order East,
Northeast, North, Northwest, West, Southwest, South, Southeast (y grows
downward). -/
def dirOffsets : List (Int × Int) :=
  [(1, 0), (1, -1), (0, -1), (-1, -1), (-1, 0), (-1, 1), (0, 1), (1, 1)]

/-- Bounds test `testX >= 0 && testX < width && testY >= 0 && testY < height`. -/
def inBounds (width height : Nat) (x y : Int) : Bool :=
  0 ≤ x && x < (width : Int) && 0 ≤ y && y < (height : Int)

/-- Route.ts lines 214–229: the candidate pixel's 3×3 neighbourhood (centre
included) contains a background pixel or an out-of-image cell ("edge of
image counts as white").  The source's nested loop with early break computes
exactly this existence, which is order-independent. -/
def hasWhiteNeighbor (pixels : PixelGrid) (width height : Nat) (x y : Int) :
    Bool :=
  [(-1 : Int), 0, 1].any fun dy =>
    [(-1 : Int), 0, 1].any fun dx =>
      !inBounds width height (x + dx) (y + dy) ||
        pixAt pixels (x + dx) (y + dy) == 0

/-- The full acceptance test of route.ts lines 211–231 for the neighbour at
`(x, y)`: in bounds, foreground, unvisited and on the boundary. -/
def candOk (pixels : PixelGrid) (width height : Nat)
    (visited : List (Int × Int)) (x y : Int) : Bool :=
  inBounds width height x y && pixAt pixels x y == 1 &&
    !visited.contains (x, y) && hasWhiteNeighbor pixels width height x y

/-- The weaker test using only the words of the specification ("the first
unvisited foreground neighbor"), without the boundary-pixel
(`hasWhiteNeighbor`) condition.  Kept for comparison with `candOk`. -/
def candFirstForeground (pixels : PixelGrid) (width height : Nat)
    (visited : List (Int × Int)) (x y : Int) : Bool :=
  inBounds width height x y && pixAt pixels x y == 1 &&
    !visited.contains (x, y)

/-- The neighbour scan of route.ts lines 205–240, parametrised by the
acceptance test: try `remaining` directions starting at offset `i` from
`direction`; on the first accepted candidate return its coordinates and the
new direction `(dirIndex + 6) % 8`. -/
def scanFrom (accept : Int → Int → Bool) (x y : Int) (direction : Nat) :
    Nat → Nat → Option (Int × Int × Nat)
  | _, 0 => none
  | i, r + 1 =>
    let dirIndex := (direction + i) % 8
    let o := dirOffsets.getD dirIndex (0, 0)
    let testX := x + o.1
    let testY := y + o.2
    if accept testX testY then some (testX, testY, (dirIndex + 6) % 8)
    else scanFrom accept x y direction (i + 1) r

/-- One full scan of the 8 neighbours (route.ts lines 205–240). -/
def findNext (pixels : PixelGrid) (width height : Nat)
    (visited : List (Int × Int)) (x y : Int) (direction : Nat) :
    Option (Int × Int × Nat) :=
  scanFrom (candOk pixels width height visited) x y direction 0 8

/-- The scan as the specification words it: first unvisited foreground
neighbour, no boundary-pixel condition. -/
def findNextFirstForeground (pixels : PixelGrid) (width height : Nat)
    (visited : List (Int × Int)) (x y : Int) (direction : Nat) :
    Option (Int × Int × Nat) :=
  scanFrom (candFirstForeground pixels width height visited) x y direction 0 8

/-- The mutable state of the trace loop of route.ts lines 200–258. -/
structure TraceState where
  x : Int
  y : Int
  direction : Nat
  boundary : List (Int × Int)
  visited : List (Int × Int)
  iterations : Nat
deriving DecidableEq, Repr

/-- The loop body effect when a next pixel was found and the loop does not
stop (route.ts lines 250–257): append the pixel with Y negated, mark it
visited, move to it, adopt the new direction, count the iteration. -/
def advanceState (s : TraceState) (nx ny : Int) (nd : Nat) : TraceState :=
  { x := nx, y := ny, direction := nd,
    boundary := s.boundary ++ [(nx, -ny)],
    visited := (nx, ny) :: s.visited,
    iterations := s.iterations + 1 }

/-- The `while (iterations < maxIterations)` loop of route.ts lines 200–258,
with the remaining iteration budget as fuel: stop on exhausted budget, on no
acceptable neighbour (`!found`), or on returning to the start pixel with
more than 3 boundary points. -/
def traceLoop (pixels : PixelGrid) (width height : Nat) (startX startY : Int) :
    Nat → TraceState → TraceState
  | 0, s => s
  | fuel + 1, s =>
    match findNext pixels width height s.visited s.x s.y s.direction with
    | none => s
    | some (nx, ny, nd) =>
      if nx = startX ∧ ny = startY ∧ 3 < s.boundary.length then s
      else traceLoop pixels width height startX startY fuel
        (advanceState s nx ny nd)

/-- The row-major scan for the first foreground pixel (route.ts lines
159–167).  The source's nested loops with the `startX === -1` guard stop at
the first match, which is `findSome?`/`find?` over the row and column
ranges. -/
def findStart (pixels : PixelGrid) (width height : Nat) :
    Option (Nat × Nat) :=
  (List.range height).findSome? fun (y : Nat) =>
    ((List.range width).find? fun (x : Nat) =>
        pixAt pixels (x : Int) (y : Int) == 1).map
      fun x => (x, y)

/-- The initial trace state (route.ts lines 177–196): current pixel at the
start, direction East, the start pixel already pushed (Y negated) and
visited, zero iterations. -/
def initTraceState (startX startY : Int) : TraceState :=
  { x := startX, y := startY, direction := 0,
    boundary := [(startX, -startY)], visited := [(startX, startY)],
    iterations := 0 }

/-- The final state of the trace loop started from `(startX, startY)` with
the iteration cap `width * height * 2` of route.ts line 198. -/
def traceFinalState (pixels : PixelGrid) (width height : Nat)
    (startX startY : Int) : TraceState :=
  traceLoop pixels width height startX startY (width * height * 2)
    (initTraceState startX startY)

/-- Function `findSingleOuterBoundary(pixels, width, height)`
(route.ts lines 157–262). -/
def findSingleOuterBoundary (pixels : PixelGrid) (width height : Nat) :
    List (Int × Int) :=
  match findStart pixels width height with
  | none => []
  | some (sx, sy) =>
    (traceFinalState pixels width height (sx : Int) (sy : Int)).boundary

/-! ## Orthogonal snapping (route.ts lines 378–428, first revision; lines
3541–3591 in the third revision differ only in the angle tolerance, 0.03 vs
0.05 radians) -/

/-- How a segment is classified by the near-orthogonal test of route.ts
lines 392–407. -/
inductive SegClass where
  | horizontal
  | vertical
  | keep
deriving DecidableEq, Repr

/-- Function `straightenNearOrthogonalLines(contour)` (route.ts lines 378–428).  The
near-horizontal / near-vertical test compares `Math.atan2(dy, dx)` against
multiples of `π` within a tolerance; `atan2` and `π` are transcendental and
have no exact rational embedding, so the test is abstracted as the
`classify` parameter.  Every property verified below holds for every
classifier, in particular for the source's. -/
def straightenNearOrthogonalLines (classify : Point → Point → SegClass)
    (contour : List Point) : List Point :=
  if contour.length < 2 then contour
  else
    contour.headD (0, 0) ::
      (List.range contour.length).map fun i =>
        let current := contour.getD i (0, 0)
        let next := contour.getD ((i + 1) % contour.length) (0, 0)
        match classify current next with
        | .horizontal => (next.1, current.2)
        | .vertical => (current.1, next.2)
        | .keep => next

/-! ## DXF writer (route.ts lines 21–127, `SimpleDxfWriter`) -/

/-- The lines pushed by the `SimpleDxfWriter` constructor (route.ts lines
24–38): minimal header section and the opening of the entities section. -/
def dxfInit : List String :=
  ["0", "SECTION", "2", "HEADER", "0", "ENDSEC",
   "0", "SECTION", "2", "ENTITIES"]

/-- Loop of `cleanPoints(points)` (route.ts lines 84–117): drop points closer than
0.01 to the previously kept point, then close the path if the kept ends are
at least 0.01 apart.  `Math.sqrt(d) >= 0.01` is embedded as
`d ≥ (1/100)^2`. -/
def cleanLoop (lastKept : Point) (acc : List Point) :
    List Point → List Point
  | [] => acc
  | p :: rest =>
    if (1 / 100 : ℚ) * (1 / 100) ≤
        (p.1 - lastKept.1) * (p.1 - lastKept.1) +
          (p.2 - lastKept.2) * (p.2 - lastKept.2)
    then cleanLoop p (acc ++ [p]) rest
    else cleanLoop lastKept acc rest

/-- See `cleanLoop`. -/
def cleanPoints (points : List Point) : List Point :=
  match points with
  | [] => points
  | [_] => points
  | p0 :: rest =>
    let cleaned := cleanLoop p0 [p0] rest
    if 2 < cleaned.length then
      let first := cleaned.headD p0
      let last := cleaned.getLastD p0
      if (1 / 100 : ℚ) * (1 / 100) ≤
          (last.1 - first.1) * (last.1 - first.1) +
            (last.2 - first.2) * (last.2 - first.2)
      then cleaned ++ [first]
      else cleaned
    else cleaned

/-- The LINE entity lines pushed for index `i` of the cleaned point list
(route.ts lines 50–80): one entity per point pair `(i, (i+1) % n)`, skipped
when the pair is closer than 0.001 (`Math.sqrt(d) < 0.001` embedded as
`d < (1/1000)^2`). -/
def lineEntity (layer : String) (current next : Point) : List String :=
  if (next.1 - current.1) * (next.1 - current.1) +
      (next.2 - current.2) * (next.2 - current.2) <
      (1 / 1000 : ℚ) * (1 / 1000)
  then []
  else
    ["0", "LINE", "8", layer,
     "10", toString current.1, "20", toString current.2, "30", "0.0",
     "11", toString next.1, "21", toString next.2, "31", "0.0"]

/-- Method `addPolyline(points, options)` (route.ts lines 40–81) applied to a
writer whose accumulated content is `content`: fewer than 2 points leave the
content untouched, otherwise one LINE entity per consecutive cleaned point
pair (wrapping around) is appended. -/
def addPolyline (content : List String) (layer : String)
    (points : List Point) : List String :=
  if points.length < 2 then content
  else
    let cleanedPoints := cleanPoints points
    content ++
      (List.range cleanedPoints.length).flatMap fun i =>
        lineEntity layer (cleanedPoints.getD i (0, 0))
          (cleanedPoints.getD ((i + 1) % cleanedPoints.length) (0, 0))

/-- Method `toString()` (route.ts lines 120–126): close the entities section, add
the end-of-file marker, join with newlines. -/
def dxfFinalLines (content : List String) : List String :=
  content ++ ["0", "ENDSEC", "0", "EOF"]

/-- See `dxfFinalLines`. -/
def dxfContentString (content : List String) : String :=
  String.intercalate "\n" (dxfFinalLines content)

/-! ## Scaler, third revision (route.ts lines 3468–3538): scales to inches,
multiplies by 100, and normalizes negative Y coordinates. -/

/-- The running minimum of route.ts lines 3507–3510 (`minY` starts at
`Infinity`, so for a nonempty list it is the least element). -/
def listMinY (ys : List ℚ) : ℚ :=
  match ys with
  | [] => 0
  | y :: t => t.foldl min y

/-- Function `scaleContour` as defined in the third revision (route.ts lines
3468–3538): scale by `target / imageDimension`, multiply by 100, and if the
minimum Y is negative shift every Y up by `|minY| + 10`. -/
def scaleContourV3 (contour : List Point)
    (targetDimensionInches imageDimensionPixels : ℚ) : List Point :=
  if contour = [] then contour
  else
    let scaleFactor := targetDimensionInches / imageDimensionPixels
    let scaledContour := contour.map fun p =>
      (p.1 * scaleFactor, p.2 * scaleFactor)
    let scaledUpContour := scaledContour.map fun p =>
      (p.1 * 100, p.2 * 100)
    let minY := listMinY (scaledUpContour.map Prod.snd)
    if minY < 0 then
      scaledUpContour.map fun p => (p.1, p.2 + (|minY| + 10))
    else scaledUpContour

end SnagToDxf

namespace SnagToDxf

/-- C3 counterexample: at `simplify = 1` the tolerance that
`douglasPeucker` actually receives is
`scaledToleranceOf (1 * 0.3) = max(0.3 * 0.3, 0.05) = 0.09`, not the claimed
`max(1 * 0.3, 0.05) = 0.3`: the factor 0.3 is applied twice, once at the
call site (route.ts line 578) and once inside `simplifyContour` (line 608). -/
theorem effective_tolerance_counterexample :
    scaledToleranceOf ((1 : ℚ) * (3 / 10)) = 9 / 100
    ∧ max ((1 : ℚ) * (3 / 10)) (1 / 20) = 3 / 10
    ∧ (9 / 100 : ℚ) ≠ 3 / 10 := by
  refine ⟨?_, ?_, by norm_num⟩
  · rw [scaledToleranceOf]; norm_num
  · norm_num

/-- C3 amended: for every simplify setting `s` and polygon, the effective
tolerance used by the Douglas–Peucker stage is `max(s * 0.09, 0.05)` (the
call site passes `s * 0.3` and `simplifyContour` multiplies by `0.3` again
before flooring at `0.05`); moreover a zero `s` skips the simplification
stage entirely, and a nonzero `s` runs `simplifyContour` with argument
`s * 0.3`. -/
theorem effective_tolerance_amended (s : ℚ) (path : List Point) :
    scaledToleranceOf (s * (3 / 10)) = max (s * (9 / 100)) (1 / 20)
    ∧ simplifyStage 0 path = path
    ∧ (s ≠ 0 → simplifyStage s path = simplifyContour path (s * (3 / 10))) := by
  refine ⟨?_, by simp [simplifyStage], fun hs => by simp [simplifyStage, hs]⟩
  rw [scaledToleranceOf]
  ring_nf

/-- Witness for `effective_tolerance_amended` at `s = 1` and a one-point
path. -/
theorem effective_tolerance_amended_witness :
    scaledToleranceOf ((1 : ℚ) * (3 / 10)) = max ((1 : ℚ) * (9 / 100)) (1 / 20)
    ∧ simplifyStage 0 [((0 : ℚ), (0 : ℚ))] = [((0 : ℚ), (0 : ℚ))]
    ∧ ((1 : ℚ) ≠ 0 →
        simplifyStage 1 [((0 : ℚ), (0 : ℚ))] =
          simplifyContour [((0 : ℚ), (0 : ℚ))] ((1 : ℚ) * (3 / 10))) :=
  effective_tolerance_amended 1 [((0 : ℚ), (0 : ℚ))]

/-! ### Boundary-tracer lemmas -/

/-- Unfolding the trace loop when the scan finds nothing. -/
theorem traceLoop_succ_none (pixels : PixelGrid) (width height : Nat)
    (startX startY : Int) (n : Nat) (s : TraceState)
    (hf : findNext pixels width height s.visited s.x s.y s.direction = none) :
    traceLoop pixels width height startX startY (n + 1) s = s := by
  rw [traceLoop, hf]

/-- Unfolding the trace loop when the scan finds a pixel. -/
theorem traceLoop_succ_some (pixels : PixelGrid) (width height : Nat)
    (startX startY : Int) (n : Nat) (s : TraceState) (nx ny : Int) (nd : Nat)
    (hf : findNext pixels width height s.visited s.x s.y s.direction =
      some (nx, ny, nd)) :
    traceLoop pixels width height startX startY (n + 1) s =
      if nx = startX ∧ ny = startY ∧ 3 < s.boundary.length then s
      else traceLoop pixels width height startX startY n
        (advanceState s nx ny nd) := by
  rw [traceLoop, hf]

/-- The trace loop consumes at most its fuel: the final state's iteration
count exceeds the initial one by at most `fuel`, and when the budget is not
exhausted the loop stopped because the scan found nothing or because the
newly found pixel is the start pixel with more than 3 boundary points. -/
theorem traceLoop_stop_spec (pixels : PixelGrid) (width height : Nat)
    (startX startY : Int) :
    ∀ (fuel : Nat) (s : TraceState),
      (traceLoop pixels width height startX startY fuel s).iterations ≤
          s.iterations + fuel
      ∧ ((traceLoop pixels width height startX startY fuel s).iterations =
            s.iterations + fuel
        ∨ findNext pixels width height
            (traceLoop pixels width height startX startY fuel s).visited
            (traceLoop pixels width height startX startY fuel s).x
            (traceLoop pixels width height startX startY fuel s).y
            (traceLoop pixels width height startX startY fuel s).direction
            = none
        ∨ ∃ nx ny nd,
            findNext pixels width height
              (traceLoop pixels width height startX startY fuel s).visited
              (traceLoop pixels width height startX startY fuel s).x
              (traceLoop pixels width height startX startY fuel s).y
              (traceLoop pixels width height startX startY fuel s).direction
              = some (nx, ny, nd)
            ∧ nx = startX ∧ ny = startY
            ∧ 3 < (traceLoop pixels width height startX startY fuel
                s).boundary.length) := by
  intro fuel
  induction fuel with
  | zero => intro s; exact ⟨Nat.le_refl _, Or.inl rfl⟩
  | succ n ih =>
    intro s
    cases hf : findNext pixels width height s.visited s.x s.y s.direction with
    | none =>
      rw [traceLoop_succ_none pixels width height startX startY n s hf]
      exact ⟨Nat.le_add_right _ _, Or.inr (Or.inl hf)⟩
    | some t =>
      obtain ⟨nx, ny, nd⟩ := t
      by_cases hstop : nx = startX ∧ ny = startY ∧ 3 < s.boundary.length
      · rw [traceLoop_succ_some pixels width height startX startY n s nx ny nd
          hf, if_pos hstop]
        exact ⟨Nat.le_add_right _ _,
          Or.inr (Or.inr ⟨nx, ny, nd, hf, hstop.1, hstop.2.1, hstop.2.2⟩)⟩
      · rw [traceLoop_succ_some pixels width height startX startY n s nx ny nd
          hf, if_neg hstop]
        refine ⟨?_, ?_⟩
        · have h1 := (ih (advanceState s nx ny nd)).1
          simpa [advanceState, Nat.add_assoc, Nat.add_comm 1 n] using h1
        · rcases (ih (advanceState s nx ny nd)).2 with h | h | h
          · left
            simpa [advanceState, Nat.add_assoc, Nat.add_comm 1 n] using h
          · exact Or.inr (Or.inl h)
          · exact Or.inr (Or.inr h)

/-- If a scan with a stronger acceptance test succeeds less often: when the
weaker scan finds nothing, so does the stronger one. -/
theorem scanFrom_none_mono (accept1 accept2 : Int → Int → Bool)
    (himp : ∀ a b, accept1 a b = true → accept2 a b = true)
    (x y : Int) (direction : Nat) :
    ∀ (r i : Nat), scanFrom accept2 x y direction i r = none →
      scanFrom accept1 x y direction i r = none := by
  intro r
  induction r with
  | zero => intro i _; rfl
  | succ n ih =>
    intro i h2
    rw [scanFrom] at h2 ⊢
    by_cases ha2 : accept2 (x + (dirOffsets.getD ((direction + i) % 8) (0, 0)).1)
        (y + (dirOffsets.getD ((direction + i) % 8) (0, 0)).2) = true
    · rw [if_pos ha2] at h2; exact absurd h2 (by simp)
    · have ha1 : ¬ accept1 (x + (dirOffsets.getD ((direction + i) % 8) (0, 0)).1)
          (y + (dirOffsets.getD ((direction + i) % 8) (0, 0)).2) = true :=
        fun h => ha2 (himp _ _ h)
      rw [if_neg ha2] at h2
      rw [if_neg ha1]
      exact ih (i + 1) h2

/-- The code's acceptance test implies the specification's weaker one. -/
theorem candOk_implies_candFirstForeground (pixels : PixelGrid)
    (width height : Nat) (visited : List (Int × Int)) (x y : Int)
    (h : candOk pixels width height visited x y = true) :
    candFirstForeground pixels width height visited x y = true := by
  simp only [candOk, Bool.and_eq_true] at h
  simp only [candFirstForeground, Bool.and_eq_true]
  exact ⟨h.1.1, h.1.2⟩

/-- C2: for every binary grid with a foreground pixel the boundary trace
loop terminates: its iteration count never exceeds the hard cap
`2 × width × height`, and if the cap was not reached it stopped either
because the neighbour scan found no acceptable pixel or because the newly
found pixel equals the start pixel with the polygon already holding more
than 3 points; in particular the scan finds nothing whenever no unvisited
foreground neighbour exists at all. -/
theorem trace_loop_terminates (pixels : PixelGrid) (width height : Nat)
    (sx sy : Nat) (hstart : findStart pixels width height = some (sx, sy)) :
    findSingleOuterBoundary pixels width height =
        (traceFinalState pixels width height (sx : Int) (sy : Int)).boundary
    ∧ (traceFinalState pixels width height (sx : Int) (sy : Int)).iterations ≤
        2 * (width * height)
    ∧ ((traceFinalState pixels width height (sx : Int) (sy : Int)).iterations =
          2 * (width * height)
      ∨ findNext pixels width height
          (traceFinalState pixels width height (sx : Int) (sy : Int)).visited
          (traceFinalState pixels width height (sx : Int) (sy : Int)).x
          (traceFinalState pixels width height (sx : Int) (sy : Int)).y
          (traceFinalState pixels width height (sx : Int) (sy : Int)).direction
          = none
      ∨ ∃ nx ny nd,
          findNext pixels width height
            (traceFinalState pixels width height (sx : Int) (sy : Int)).visited
            (traceFinalState pixels width height (sx : Int) (sy : Int)).x
            (traceFinalState pixels width height (sx : Int) (sy : Int)).y
            (traceFinalState pixels width height (sx : Int) (sy : Int)).direction
            = some (nx, ny, nd)
          ∧ nx = (sx : Int) ∧ ny = (sy : Int)
          ∧ 3 < (traceFinalState pixels width height (sx : Int)
              (sy : Int)).boundary.length)
    ∧ (∀ (s : TraceState),
        findNextFirstForeground pixels width height s.visited s.x s.y
            s.direction = none →
        findNext pixels width height s.visited s.x s.y s.direction = none) := by
  have hcap : width * height * 2 = 2 * (width * height) := by ring
  have hspec := traceLoop_stop_spec pixels width height (sx : Int) (sy : Int)
    (width * height * 2) (initTraceState (sx : Int) (sy : Int))
  refine ⟨?_, ?_, ?_, ?_⟩
  · rw [findSingleOuterBoundary, hstart]
  · have h1 := hspec.1
    rw [traceFinalState]
    simpa [initTraceState, hcap] using h1
  · have h2 := hspec.2
    rw [traceFinalState]
    simpa [initTraceState, hcap, traceFinalState] using h2
  · intro s hnone
    exact scanFrom_none_mono _ _
      (candOk_implies_candFirstForeground pixels width height s.visited)
      s.x s.y s.direction 8 0 hnone

/-- Witness for `trace_loop_terminates`: the 1×1 all-foreground grid. -/
theorem trace_loop_terminates_witness :
    findStart [[1]] 1 1 = some (0, 0)
    ∧ findSingleOuterBoundary [[1]] 1 1 =
        (traceFinalState [[1]] 1 1 ((0 : Nat) : Int) ((0 : Nat) : Int)).boundary
    ∧ (traceFinalState [[1]] 1 1 ((0 : Nat) : Int)
          ((0 : Nat) : Int)).iterations ≤ 2 * (1 * 1) :=
  ⟨by decide, (trace_loop_terminates [[1]] 1 1 0 0 (by decide)).1,
    (trace_loop_terminates [[1]] 1 1 0 0 (by decide)).2.1⟩

/-- C4: a grid with no foreground pixel (in particular an empty grid) makes
the boundary tracer return the empty polygon. -/
theorem empty_grid_empty_boundary (pixels : PixelGrid) (width height : Nat)
    (hempty : ∀ y < height, ∀ x < width,
      pixAt pixels (x : Int) (y : Int) ≠ 1) :
    findSingleOuterBoundary pixels width height = [] := by
  have hnone : findStart pixels width height = none := by
    rw [findStart]
    rw [List.findSome?_eq_none_iff]
    intro y hy
    rw [List.mem_range] at hy
    have hfind : ((List.range width).find? fun (x : Nat) =>
        pixAt pixels (x : Int) (y : Int) == 1) = none := by
      rw [List.find?_eq_none]
      intro x hx
      rw [List.mem_range] at hx
      simpa using hempty y hy x hx
    rw [hfind]
    rfl
  rw [findSingleOuterBoundary, hnone]

/-- Witness for `empty_grid_empty_boundary`: the all-background 2×2 grid. -/
theorem empty_grid_empty_boundary_witness :
    (∀ (y : Nat), y < 2 → ∀ (x : Nat), x < 2 →
      pixAt [[0, 0], [0, 0]] (x : Int) (y : Int) ≠ 1)
    ∧ findSingleOuterBoundary [[0, 0], [0, 0]] 2 2 = [] :=
  ⟨by decide, empty_grid_empty_boundary [[0, 0], [0, 0]] 2 2 (by decide)⟩

/-- C7 counterexample: on the 4×4 all-foreground grid, at the (reachable)
state after one trace step the code selects pixel `(2, 0)` although the
first unvisited foreground neighbour in scan order is `(1, 1)` — the code
additionally requires the candidate to be a boundary pixel (one with a
background or out-of-image cell in its 3×3 neighbourhood), which `(1, 1)`
is not. -/
theorem trace_step_selection_counterexample :
    findNext (List.replicate 4 (List.replicate 4 1)) 4 4
        (traceLoop (List.replicate 4 (List.replicate 4 1)) 4 4 0 0 1
          (initTraceState 0 0)).visited 1 0 6 = some (2, 0, 6)
    ∧ findNextFirstForeground (List.replicate 4 (List.replicate 4 1)) 4 4
        (traceLoop (List.replicate 4 (List.replicate 4 1)) 4 4 0 0 1
          (initTraceState 0 0)).visited 1 0 6 = some (1, 1, 4)
    ∧ (traceLoop (List.replicate 4 (List.replicate 4 1)) 4 4 0 0 1
          (initTraceState 0 0)).x = 1
    ∧ (traceLoop (List.replicate 4 (List.replicate 4 1)) 4 4 0 0 1
          (initTraceState 0 0)).y = 0
    ∧ (traceLoop (List.replicate 4 (List.replicate 4 1)) 4 4 0 0 1
          (initTraceState 0 0)).direction = 6
    ∧ ((2 : Int), (0 : Int)) ≠ ((1 : Int), (1 : Int)) := by
  refine ⟨by decide, by decide, by decide, by decide, by decide, by decide⟩

/-- The neighbour scan has first-match semantics: a successful scan starting
at offset `i` found its pixel at some offset `i + k` within the budget, the
acceptance test holds there, the returned direction is
`(dirIndex + 6) % 8`, and the test fails at every earlier offset. -/
theorem scanFrom_some_spec (accept : Int → Int → Bool) (x y : Int)
    (direction : Nat) :
    ∀ (r i : Nat) (nx ny : Int) (nd : Nat),
      scanFrom accept x y direction i r = some (nx, ny, nd) →
      ∃ k < r,
        nx = x + (dirOffsets.getD ((direction + (i + k)) % 8) (0, 0)).1
        ∧ ny = y + (dirOffsets.getD ((direction + (i + k)) % 8) (0, 0)).2
        ∧ accept nx ny = true
        ∧ nd = ((direction + (i + k)) % 8 + 6) % 8
        ∧ ∀ j < k,
            accept (x + (dirOffsets.getD ((direction + (i + j)) % 8) (0, 0)).1)
              (y + (dirOffsets.getD ((direction + (i + j)) % 8) (0, 0)).2)
              = false := by
  intro r
  induction r with
  | zero => intro i nx ny nd h; exact absurd h (by simp [scanFrom])
  | succ n ih =>
    intro i nx ny nd h
    rw [scanFrom] at h
    by_cases ha : accept (x + (dirOffsets.getD ((direction + i) % 8) (0, 0)).1)
        (y + (dirOffsets.getD ((direction + i) % 8) (0, 0)).2) = true
    · rw [if_pos ha] at h
      have htr := Option.some.inj h
      have h1 : nx = x + (dirOffsets.getD ((direction + i) % 8) (0, 0)).1 :=
        (congrArg Prod.fst htr).symm
      have hrest := congrArg Prod.snd htr
      have h2 : ny = y + (dirOffsets.getD ((direction + i) % 8) (0, 0)).2 :=
        (congrArg Prod.fst hrest).symm
      have h3 : nd = ((direction + i) % 8 + 6) % 8 :=
        (congrArg Prod.snd hrest).symm
      refine ⟨0, Nat.succ_pos n, ?_, ?_, ?_, ?_, ?_⟩
      · simpa using h1
      · simpa using h2
      · rw [h1, h2]; exact ha
      · simpa using h3
      · intro j hj; exact absurd hj (Nat.not_lt_zero j)
    · rw [if_neg ha] at h
      obtain ⟨k, hk, h1, h2, h3, h4, h5⟩ := ih (i + 1) nx ny nd h
      refine ⟨k + 1, Nat.succ_lt_succ hk, ?_, ?_, h3, ?_, ?_⟩
      · simpa [Nat.add_assoc, Nat.add_comm 1 k] using h1
      · simpa [Nat.add_assoc, Nat.add_comm 1 k] using h2
      · simpa [Nat.add_assoc, Nat.add_comm 1 k] using h4
      · intro j hj
        cases j with
        | zero => simpa using ha
        | succ m =>
          have hm : m < k := Nat.lt_of_succ_lt_succ hj
          have := h5 m hm
          simpa [Nat.add_assoc, Nat.add_comm 1 m] using this

/-- C7 amended: at every tracing step the 8 neighbours are scanned starting
from the current direction in the fixed order East, NE, N, NW, W, SW, S,
SE, and the first neighbour that is an unvisited foreground *boundary*
pixel (it must also have a background or out-of-image cell in its 3×3
neighbourhood) is selected; the new direction is
`(foundDirectionIndex + 6) mod 8`; the selected pixel is marked visited and
appended to the polygon with its Y coordinate negated. -/
theorem trace_step_selection (pixels : PixelGrid) (width height : Nat)
    (visited : List (Int × Int)) (x y : Int) (direction : Nat)
    (nx ny : Int) (nd : Nat)
    (h : findNext pixels width height visited x y direction =
      some (nx, ny, nd)) :
    (∃ k < 8,
      nx = x + (dirOffsets.getD ((direction + k) % 8) (0, 0)).1
      ∧ ny = y + (dirOffsets.getD ((direction + k) % 8) (0, 0)).2
      ∧ candOk pixels width height visited nx ny = true
      ∧ nd = ((direction + k) % 8 + 6) % 8
      ∧ ∀ j < k,
          candOk pixels width height visited
            (x + (dirOffsets.getD ((direction + j) % 8) (0, 0)).1)
            (y + (dirOffsets.getD ((direction + j) % 8) (0, 0)).2) = false)
    ∧ ∀ (startX startY : Int) (fuel : Nat) (s : TraceState),
        s.x = x → s.y = y → s.direction = direction → s.visited = visited →
        ¬(nx = startX ∧ ny = startY ∧ 3 < s.boundary.length) →
        traceLoop pixels width height startX startY (fuel + 1) s =
          traceLoop pixels width height startX startY fuel
            { x := nx, y := ny, direction := nd,
              boundary := s.boundary ++ [(nx, -ny)],
              visited := (nx, ny) :: s.visited,
              iterations := s.iterations + 1 } := by
  constructor
  · have := scanFrom_some_spec (candOk pixels width height visited) x y
      direction 8 0 nx ny nd h
    obtain ⟨k, hk, h1, h2, h3, h4, h5⟩ := this
    refine ⟨k, hk, by simpa using h1, by simpa using h2, h3, by simpa using h4,
      fun j hj => by simpa using h5 j hj⟩
  · intro startX startY fuel s hx hy hd hv hstop
    have hf : findNext pixels width height s.visited s.x s.y s.direction =
        some (nx, ny, nd) := by rw [hx, hy, hd, hv]; exact h
    rw [traceLoop_succ_some pixels width height startX startY fuel s nx ny nd
      hf, if_neg hstop]
    rfl

/-- Witness for `trace_step_selection`: the first step on the 4×4
all-foreground grid, where the scan selects the East neighbour `(1, 0)` and
turns the direction to `6`. -/
theorem trace_step_selection_witness :
    findNext (List.replicate 4 (List.replicate 4 1)) 4 4 [(0, 0)] 0 0 0 =
        some (1, 0, 6)
    ∧ (∃ k < 8,
        (1 : Int) = 0 + (dirOffsets.getD ((0 + k) % 8) (0, 0)).1
        ∧ (0 : Int) = 0 + (dirOffsets.getD ((0 + k) % 8) (0, 0)).2
        ∧ candOk (List.replicate 4 (List.replicate 4 1)) 4 4 [(0, 0)] 1 0 = true
        ∧ 6 = ((0 + k) % 8 + 6) % 8
        ∧ ∀ j < k,
            candOk (List.replicate 4 (List.replicate 4 1)) 4 4 [(0, 0)]
              (0 + (dirOffsets.getD ((0 + j) % 8) (0, 0)).1)
              (0 + (dirOffsets.getD ((0 + j) % 8) (0, 0)).2) = false) :=
  ⟨by decide,
    (trace_step_selection (List.replicate 4 (List.replicate 4 1)) 4 4
      [(0, 0)] 0 0 0 1 0 6 (by decide)).1⟩

/-- C10: on any polygon with at least 2 points, orthogonal snapping pushes
the first point and then one point per segment — including the wrap-around
segment from the last point back to the first — so the output has exactly
one more point than the input, for every segment classifier (in particular
the source's angle test). -/
theorem straighten_adds_one_point (classify : Point → Point → SegClass)
    (contour : List Point) (h : 2 ≤ contour.length) :
    (straightenNearOrthogonalLines classify contour).length =
      contour.length + 1 := by
  rw [straightenNearOrthogonalLines, if_neg (by omega)]
  simp

/-- Witness for `straighten_adds_one_point`: a 2-point polygon with the
trivial classifier grows to 3 points. -/
theorem straighten_adds_one_point_witness :
    2 ≤ ([((0 : ℚ), (0 : ℚ)), (1, 1)] : List Point).length
    ∧ (straightenNearOrthogonalLines (fun _ _ => SegClass.keep)
        [((0 : ℚ), (0 : ℚ)), (1, 1)]).length =
      ([((0 : ℚ), (0 : ℚ)), (1, 1)] : List Point).length + 1 :=
  ⟨by decide,
    straighten_adds_one_point (fun _ _ => SegClass.keep)
      [((0 : ℚ), (0 : ℚ)), (1, 1)] (by decide)⟩

/-- C5: emitting the empty polygon leaves the writer content untouched
(`addPolyline` returns early for fewer than 2 points), so the emitted
document contains zero LINE entities, still carries the full structural
scaffolding, and ends with the `EOF` marker; no case raises an error (the
emitter is a total function). -/
theorem empty_polygon_valid_dxf :
    (dxfFinalLines (addPolyline dxfInit "0" [])).count "LINE" = 0
    ∧ (dxfFinalLines (addPolyline dxfInit "0" [])).getLast? = some "EOF"
    ∧ dxfContentString (addPolyline dxfInit "0" []) =
        "0\nSECTION\n2\nHEADER\n0\nENDSEC\n0\nSECTION\n2\nENTITIES\n0\nENDSEC\n0\nEOF"
    := by
  refine ⟨by rfl, by rfl, by rfl⟩

/-! ### Scaler normalization lemmas -/

/-- Folding `min` never exceeds the initial accumulator. -/
theorem foldl_min_le_init (ys : List ℚ) :
    ∀ a : ℚ, ys.foldl min a ≤ a := by
  induction ys with
  | nil => intro a; exact le_refl a
  | cons y t ih =>
    intro a
    exact le_trans (ih (min a y)) (min_le_left a y)

/-- Folding `min` is a lower bound of every list element. -/
theorem foldl_min_le_mem (ys : List ℚ) :
    ∀ (a y : ℚ), y ∈ ys → ys.foldl min a ≤ y := by
  induction ys with
  | nil => intro a y hy; exact absurd hy (List.not_mem_nil y)
  | cons b t ih =>
    intro a y hy
    rcases List.mem_cons.mp hy with rfl | hy
    · exact le_trans (foldl_min_le_init t (min a y)) (min_le_right a y)
    · exact ih (min a b) y hy

/-- Helper `listMinY` is a lower bound of a nonempty list. -/
theorem listMinY_le (ys : List ℚ) (y : ℚ) (hy : y ∈ ys) :
    listMinY ys ≤ y := by
  cases ys with
  | nil => exact absurd hy (List.not_mem_nil y)
  | cons b t =>
    rw [listMinY]
    rcases List.mem_cons.mp hy with rfl | hy
    · exact foldl_min_le_init t y
    · exact foldl_min_le_mem t b y hy

/-- C8: if after scaling (and the ×100 unit conversion) the minimum Y
coordinate is negative, the scaler shifts every point up by `|minY| + 10`,
so every output point — in particular the minimum — has Y coordinate at
least the margin 10. -/
theorem scaler_normalizes_negative_y (contour : List Point)
    (target imgDim : ℚ) (hne : contour ≠ [])
    (hneg : listMinY
        (((contour.map fun p => (p.1 * (target / imgDim),
            p.2 * (target / imgDim))).map fun p =>
              (p.1 * 100, p.2 * 100)).map Prod.snd) < 0) :
    scaleContourV3 contour target imgDim =
      ((contour.map fun p => (p.1 * (target / imgDim),
          p.2 * (target / imgDim))).map fun p =>
            (p.1 * 100, p.2 * 100)).map
        (fun p => (p.1, p.2 +
          (|listMinY (((contour.map fun p => (p.1 * (target / imgDim),
              p.2 * (target / imgDim))).map fun p =>
                (p.1 * 100, p.2 * 100)).map Prod.snd)| + 10)))
    ∧ ∀ p ∈ scaleContourV3 contour target imgDim, 10 ≤ p.2 := by
  have hunf : scaleContourV3 contour target imgDim =
      ((contour.map fun p => (p.1 * (target / imgDim),
          p.2 * (target / imgDim))).map fun p =>
            (p.1 * 100, p.2 * 100)).map
        (fun p => (p.1, p.2 +
          (|listMinY (((contour.map fun p => (p.1 * (target / imgDim),
              p.2 * (target / imgDim))).map fun p =>
                (p.1 * 100, p.2 * 100)).map Prod.snd)| + 10))) := by
    rw [scaleContourV3, if_neg (by simpa using hne)]
    rw [if_pos hneg]
  refine ⟨hunf, ?_⟩
  intro p hp
  rw [hunf] at hp
  rw [List.mem_map] at hp
  obtain ⟨q, hq, rfl⟩ := hp
  have hqy : listMinY
      (((contour.map fun p => (p.1 * (target / imgDim),
          p.2 * (target / imgDim))).map fun p =>
            (p.1 * 100, p.2 * 100)).map Prod.snd) ≤ q.2 :=
    listMinY_le _ q.2 (List.mem_map.mpr ⟨q, hq, rfl⟩)
  have habs : |listMinY
      (((contour.map fun p => (p.1 * (target / imgDim),
          p.2 * (target / imgDim))).map fun p =>
            (p.1 * 100, p.2 * 100)).map Prod.snd)| =
      -listMinY
      (((contour.map fun p => (p.1 * (target / imgDim),
          p.2 * (target / imgDim))).map fun p =>
            (p.1 * 100, p.2 * 100)).map Prod.snd) := abs_of_neg hneg
  rw [habs]
  linarith

/-- Witness for `scaler_normalizes_negative_y`: the one-point polygon
`[(0, -1)]` scaled with factor 1 lands at Y = −100 and is shifted to
Y = 10. -/
theorem scaler_normalizes_negative_y_witness :
    ([((0 : ℚ), (-1 : ℚ))] : List Point) ≠ []
    ∧ listMinY (((([((0 : ℚ), (-1 : ℚ))] : List Point).map fun p =>
        (p.1 * ((1 : ℚ) / 1), p.2 * ((1 : ℚ) / 1))).map fun p =>
          (p.1 * 100, p.2 * 100)).map Prod.snd) < 0
    ∧ ∀ p ∈ scaleContourV3 [((0 : ℚ), (-1 : ℚ))] 1 1, 10 ≤ p.2 :=
  ⟨by decide, by norm_num [listMinY],
    (scaler_normalizes_negative_y [((0 : ℚ), (-1 : ℚ))] 1 1 (by decide)
      (by norm_num [listMinY])).2⟩

/-! ### Douglas–Peucker length lemmas -/

/-- Unfolding `douglasPeucker` at positive fuel. -/
theorem douglasPeucker_succ (n : Nat) (points : List Point) (t : ℚ) :
    douglasPeucker (n + 1) points t =
      if points.length ≤ 2 then points
      else if distGt (maxDistScan points).1 (.num t) then
        (douglasPeucker n (points.take ((maxDistScan points).2 + 1))
          t).dropLast ++
          douglasPeucker n (points.drop (maxDistScan points).2) t
      else [points.headD (0, 0), points.getLastD (0, 0)] := rfl

/-- A fold that either keeps its accumulator's index or stores a list
element ends with its initial index or an element of the list. -/
theorem foldl_snd_mem {α : Type} (g : (α × Nat) → Nat → (α × Nat))
    (hg : ∀ acc i, (g acc i).2 = i ∨ (g acc i).2 = acc.2) :
    ∀ (l : List Nat) (acc : α × Nat),
      (l.foldl g acc).2 = acc.2 ∨ (l.foldl g acc).2 ∈ l := by
  intro l
  induction l with
  | nil => intro acc; exact Or.inl rfl
  | cons a tl ih =>
    intro acc
    rw [List.foldl_cons]
    rcases ih (g acc a) with h | h
    · rcases hg acc a with h2 | h2
      · exact Or.inr (by rw [h, h2]; exact List.mem_cons_self a tl)
      · exact Or.inl (h.trans h2)
    · exact Or.inr (List.mem_cons_of_mem a h)

/-- The index returned by the distance scan is 0 or one of the scanned
indices `1 .. points.length - 2`. -/
theorem maxDistScan_snd (points : List Point) :
    (maxDistScan points).2 = 0 ∨
      (maxDistScan points).2 ∈ List.range' 1 (points.length - 2) := by
  rw [maxDistScan]
  exact foldl_snd_mem _ (fun acc i => by
    by_cases h : distGt (getPerpendicularDistance (points.getD i (0, 0))
        (points.headD (0, 0)) (points.getLastD (0, 0))) acc.1
    · rw [if_pos h]; exact Or.inl rfl
    · rw [if_neg h]; exact Or.inr rfl) _ _

/-- The scan index stays at most `points.length - 2` when the list has more
than 2 points. -/
theorem maxDistScan_snd_le (points : List Point)
    (h : ¬ points.length ≤ 2) :
    (maxDistScan points).2 + 2 ≤ points.length := by
  rcases maxDistScan_snd points with h0 | hmem
  · omega
  · rw [List.mem_range'_1] at hmem
    omega

/-- Lemma: `douglasPeucker` never adds points. -/
theorem douglasPeucker_length_le :
    ∀ (fuel : Nat) (points : List Point) (t : ℚ),
      (douglasPeucker fuel points t).length ≤ points.length := by
  intro fuel
  induction fuel with
  | zero => intro points t; exact Nat.le_refl _
  | succ n ih =>
    intro points t
    rw [douglasPeucker_succ]
    by_cases hlen : points.length ≤ 2
    · rw [if_pos hlen]
    · rw [if_neg hlen]
      by_cases hgt : distGt (maxDistScan points).1 (.num t) = true
      · rw [if_pos hgt]
        have hleft := ih (points.take ((maxDistScan points).2 + 1)) t
        have hright := ih (points.drop (maxDistScan points).2) t
        rw [List.length_take] at hleft
        rw [List.length_drop] at hright
        have hdl : ((douglasPeucker n
            (points.take ((maxDistScan points).2 + 1)) t).dropLast).length =
            (douglasPeucker n (points.take ((maxDistScan points).2 + 1))
              t).length - 1 := List.length_dropLast _
        rw [List.length_append, hdl]
        omega
      · rw [if_neg hgt]
        have h2 : ([points.headD (0, 0), points.getLastD (0, 0)]).length = 2 :=
          rfl
        omega

/-- Lemma: `douglasPeucker` keeps at least 2 points of an input with at least 2
points. -/
theorem douglasPeucker_two_le_length :
    ∀ (fuel : Nat) (points : List Point) (t : ℚ),
      2 ≤ points.length → 2 ≤ (douglasPeucker fuel points t).length := by
  intro fuel
  induction fuel with
  | zero => intro points t h; exact h
  | succ n ih =>
    intro points t h
    rw [douglasPeucker_succ]
    by_cases hlen : points.length ≤ 2
    · rw [if_pos hlen]; exact h
    · rw [if_neg hlen]
      by_cases hgt : distGt (maxDistScan points).1 (.num t) = true
      · rw [if_pos hgt]
        have hdroplen : 2 ≤ (points.drop (maxDistScan points).2).length := by
          rw [List.length_drop]
          have := maxDistScan_snd_le points hlen
          omega
        have hright := ih (points.drop (maxDistScan points).2) t hdroplen
        rw [List.length_append]
        omega
      · rw [if_neg hgt]
        simp

/-- The comparison with the tolerance is antitone in the tolerance: a
distance exceeding the larger tolerance exceeds the smaller one. -/
theorem distGt_num_mono (d : DistVal) (t t' : ℚ) (h : t ≤ t')
    (hgt : distGt d (.num t') = true) : distGt d (.num t) = true := by
  cases d with
  | num u =>
    simp only [distGt, decide_eq_true_eq] at hgt ⊢
    linarith
  | sqrtOf u =>
    simp only [distGt, Bool.or_eq_true, decide_eq_true_eq] at hgt ⊢
    by_cases ht : t < 0
    · exact Or.inl ht
    · push_neg at ht
      rcases hgt with h1 | h1
      · linarith
      · right
        have : t * t ≤ t' * t' := mul_self_le_mul_self ht h
        linarith

/-- Raising the tolerance never increases the number of points
`douglasPeucker` keeps. -/
theorem douglasPeucker_length_antitone :
    ∀ (fuel : Nat) (points : List Point) (t t' : ℚ), t ≤ t' →
      (douglasPeucker fuel points t').length ≤
        (douglasPeucker fuel points t).length := by
  intro fuel
  induction fuel with
  | zero => intro points t t' _; exact Nat.le_refl _
  | succ n ih =>
    intro points t t' htt
    by_cases hlen : points.length ≤ 2
    · rw [douglasPeucker_succ, douglasPeucker_succ, if_pos hlen, if_pos hlen]
    · by_cases hgt' : distGt (maxDistScan points).1 (.num t') = true
      · have hgt : distGt (maxDistScan points).1 (.num t) = true :=
          distGt_num_mono _ t t' htt hgt'
        rw [douglasPeucker_succ, douglasPeucker_succ, if_neg hlen,
          if_neg hlen, if_pos hgt', if_pos hgt]
        have hleft := ih (points.take ((maxDistScan points).2 + 1)) t t' htt
        have hright := ih (points.drop (maxDistScan points).2) t t' htt
        rw [List.length_append, List.length_append, List.length_dropLast,
          List.length_dropLast]
        omega
      · by_cases hgt : distGt (maxDistScan points).1 (.num t) = true
        · have h2 : 2 ≤ (douglasPeucker (n + 1) points t).length :=
            douglasPeucker_two_le_length (n + 1) points t (by omega)
          rw [douglasPeucker_succ, if_neg hlen, if_neg hgt']
          simpa using h2
        · rw [douglasPeucker_succ, douglasPeucker_succ, if_neg hlen,
            if_neg hlen, if_neg hgt', if_neg hgt]

/-- The tolerance handed to `douglasPeucker` is monotone in the simplify
setting. -/
theorem scaledToleranceOf_mono (s1 s2 : ℚ) (h : s1 ≤ s2) :
    scaledToleranceOf (s1 * (3 / 10)) ≤ scaledToleranceOf (s2 * (3 / 10)) := by
  rw [scaledToleranceOf, scaledToleranceOf]
  have : s1 * (3 / 10) * (3 / 10) ≤ s2 * (3 / 10) * (3 / 10) := by nlinarith
  exact max_le_max this (le_refl _)

/-- The simplification stage never increases the point count. -/
theorem simplifyStage_length_le (s : ℚ) (path : List Point) :
    (simplifyStage s path).length ≤ path.length := by
  rw [simplifyStage]
  by_cases hs : s = 0
  · rw [if_pos hs]
  · rw [if_neg hs, simplifyContour]
    by_cases hlen : path.length ≤ 2
    · rw [if_pos hlen]
    · rw [if_neg hlen]
      exact douglasPeucker_length_le path.length path _

/-! ### Adaptive point reduction length lemmas -/

/-- The `targetPoints` value is always at least 50. -/
theorem aprTarget_ge_50 (n : ℕ) (r : ℚ) : 50 ≤ aprTarget n r := by
  rw [aprTarget]
  refine le_min (by norm_num) ?_
  exact le_trans (le_max_left 50 _) (le_max_left _ _)

/-- The `targetPoints` value is antitone in the reduction factor. -/
theorem aprTarget_antitone (n : ℕ) (r1 r2 : ℚ) (h : r1 ≤ r2) :
    aprTarget n r2 ≤ aprTarget n r1 := by
  rw [aprTarget, aprTarget]
  refine min_le_min (le_refl _) (max_le_max (le_refl _) ?_)
  refine Int.floor_le_floor ?_
  have hn : (0 : ℚ) ≤ (n : ℚ) := Nat.cast_nonneg n
  nlinarith

/-- A `filterMap` whose function succeeds on every element keeps the whole
length. -/
theorem filterMap_length_of_all_some {α β : Type} (f : α → Option β) :
    ∀ (l : List α), (∀ a ∈ l, (f a).isSome) →
      (l.filterMap f).length = l.length := by
  intro l
  induction l with
  | nil => intro _; rfl
  | cons a tl ih =>
    intro h
    have ha := h a (List.mem_cons_self a tl)
    obtain ⟨b, hb⟩ := Option.isSome_iff_exists.mp ha
    rw [List.filterMap_cons, hb, List.length_cons,
      ih (fun x hx => h x (List.mem_cons_of_mem a hx)), List.length_cons]

/-- In the resampling branch the output has exactly `targetPoints`
points. -/
theorem adaptivePointReduction_length (contour : List Point) (r : ℚ)
    (h3 : ¬ contour.length ≤ 3)
    (hlt : ¬ (contour.length : ℤ) ≤ aprTarget contour.length r) :
    (adaptivePointReduction contour r).length =
      (aprTarget contour.length r).toNat := by
  push_neg at hlt
  have h50 := aprTarget_ge_50 contour.length r
  have htp50 : 50 ≤ (aprTarget contour.length r).toNat := by omega
  have htplt : (aprTarget contour.length r).toNat < contour.length := by omega
  rw [adaptivePointReduction, if_neg h3,
    if_neg (by omega : ¬ (contour.length : ℤ) ≤ aprTarget contour.length r)]
  rw [List.length_append, List.length_cons]
  have hfm : ((List.range' 1 ((aprTarget contour.length r).toNat - 2)).filterMap
      fun (i : ℕ) =>
        if 0 < ⌊(i : ℚ) * ((contour.length : ℚ) /
              (((aprTarget contour.length r).toNat : ℕ) : ℚ))⌋ ∧
            ⌊(i : ℚ) * ((contour.length : ℚ) /
              (((aprTarget contour.length r).toNat : ℕ) : ℚ))⌋ <
              (contour.length : ℤ) - 1 then
          some (contour.getD (⌊(i : ℚ) * ((contour.length : ℚ) /
            (((aprTarget contour.length r).toNat : ℕ) : ℚ))⌋).toNat (0, 0))
        else none).length = (aprTarget contour.length r).toNat - 2 := by
    rw [filterMap_length_of_all_some]
    · rw [List.length_range']
    · intro i hi
      rw [List.mem_range'_1] at hi
      have hstep1 : (1 : ℚ) < (contour.length : ℚ) /
          (((aprTarget contour.length r).toNat : ℕ) : ℚ) := by
        rw [lt_div_iff₀ (by exact_mod_cast
          (by omega : 0 < (aprTarget contour.length r).toNat))]
        rw [one_mul]
        exact_mod_cast htplt
      have hip : (1 : ℚ) ≤ (i : ℚ) := by exact_mod_cast hi.1
      have hfloor1 : (1 : ℤ) ≤ ⌊(i : ℚ) * ((contour.length : ℚ) /
          (((aprTarget contour.length r).toNat : ℕ) : ℚ))⌋ := by
        rw [Int.le_floor]
        push_cast
        nlinarith
      have hiub : (i : ℚ) ≤ (((aprTarget contour.length r).toNat : ℕ) : ℚ) - 2 := by
        have hile : i ≤ (aprTarget contour.length r).toNat - 2 := by omega
        have h2 : (i : ℚ) ≤ (((aprTarget contour.length r).toNat - 2 : ℕ) : ℚ) := by
          exact_mod_cast hile
        rw [Nat.cast_sub (by omega)] at h2
        simpa using h2
      have hfloor2 : ⌊(i : ℚ) * ((contour.length : ℚ) /
          (((aprTarget contour.length r).toNat : ℕ) : ℚ))⌋ <
          (contour.length : ℤ) - 1 := by
        have htpq : (0 : ℚ) < (((aprTarget contour.length r).toNat : ℕ) : ℚ) := by
          exact_mod_cast (by omega : 0 < (aprTarget contour.length r).toNat)
        have hub : (i : ℚ) * ((contour.length : ℚ) /
            (((aprTarget contour.length r).toNat : ℕ) : ℚ)) <
            (contour.length : ℚ) - 2 := by
          have hprod : (i : ℚ) * ((contour.length : ℚ) /
              (((aprTarget contour.length r).toNat : ℕ) : ℚ)) ≤
              ((((aprTarget contour.length r).toNat : ℕ) : ℚ) - 2) *
                ((contour.length : ℚ) /
                  (((aprTarget contour.length r).toNat : ℕ) : ℚ)) := by
            have hpos : (0 : ℚ) ≤ (contour.length : ℚ) /
                (((aprTarget contour.length r).toNat : ℕ) : ℚ) := by positivity
            exact mul_le_mul_of_nonneg_right hiub hpos
          have hexpand : ((((aprTarget contour.length r).toNat : ℕ) : ℚ) - 2) *
              ((contour.length : ℚ) /
                (((aprTarget contour.length r).toNat : ℕ) : ℚ)) =
              (contour.length : ℚ) - 2 * ((contour.length : ℚ) /
                (((aprTarget contour.length r).toNat : ℕ) : ℚ)) := by
            field_simp
            ring
          rw [hexpand] at hprod
          nlinarith
        rw [Int.floor_lt]
        push_cast
        push_cast at hub
        linarith
      rw [if_pos ⟨by omega, hfloor2⟩]
      rfl
  rw [hfm]
  have h1 : ([contour.getLastD (0, 0)]).length = 1 := rfl
  omega

/-- The output length of `adaptivePointReduction` is antitone in the
reduction factor. -/
theorem adaptivePointReduction_length_antitone (contour : List Point)
    (r1 r2 : ℚ) (h : r1 ≤ r2) :
    (adaptivePointReduction contour r2).length ≤
      (adaptivePointReduction contour r1).length := by
  by_cases h3 : contour.length ≤ 3
  · rw [adaptivePointReduction, adaptivePointReduction, if_pos h3, if_pos h3]
  · have hmono := aprTarget_antitone contour.length r1 r2 h
    by_cases hc1 : (contour.length : ℤ) ≤ aprTarget contour.length r1
    · by_cases hc2 : (contour.length : ℤ) ≤ aprTarget contour.length r2
      · rw [adaptivePointReduction, adaptivePointReduction, if_neg h3,
          if_neg h3, if_pos hc1, if_pos hc2]
      · have hl2 := adaptivePointReduction_length contour r2 h3 hc2
        have hl1 : (adaptivePointReduction contour r1).length =
            contour.length := by
          rw [adaptivePointReduction, if_neg h3, if_pos hc1]
        rw [hl1, hl2]
        omega
    · have hc2 : ¬ (contour.length : ℤ) ≤ aprTarget contour.length r2 := by
        omega
      rw [adaptivePointReduction_length contour r1 h3 hc1,
        adaptivePointReduction_length contour r2 h3 hc2]
      have h50 := aprTarget_ge_50 contour.length r2
      omega

/-- C6: for every fixed input polygon, increasing the simplify setting
never increases the point count, both through the Douglas–Peucker stage as
called by `convertRasterToDxf` (a zero setting skips the stage, a positive
one prunes with a tolerance monotone in the setting) and through the
adaptive point reduction of the third revision. -/
theorem simplify_monotone_point_count (contour : List Point) (s1 s2 : ℚ)
    (h0 : 0 ≤ s1) (h12 : s1 ≤ s2) :
    (simplifyStage s2 contour).length ≤ (simplifyStage s1 contour).length
    ∧ (adaptivePointReduction contour s2).length ≤
        (adaptivePointReduction contour s1).length := by
  refine ⟨?_, adaptivePointReduction_length_antitone contour s1 s2 h12⟩
  by_cases hs1 : s1 = 0
  · have h1 : simplifyStage s1 contour = contour := by
      rw [simplifyStage, if_pos hs1]
    rw [h1]
    exact simplifyStage_length_le s2 contour
  · have hs2 : s2 ≠ 0 := by
      intro h2
      rw [h2] at h12
      exact hs1 (le_antisymm h12 h0)
    rw [simplifyStage, simplifyStage, if_neg hs1, if_neg hs2,
      simplifyContour, simplifyContour]
    by_cases hlen : contour.length ≤ 2
    · simp only [if_pos hlen]
      exact le_rfl
    · rw [if_neg hlen, if_neg hlen]
      exact douglasPeucker_length_antitone contour.length contour _ _
        (scaledToleranceOf_mono s1 s2 h12)

/-- Witness for `simplify_monotone_point_count`: three collinear points,
settings 0 and 1. -/
theorem simplify_monotone_point_count_witness :
    (0 : ℚ) ≤ 0 ∧ (0 : ℚ) ≤ 1
    ∧ (simplifyStage 1 [((0 : ℚ), (0 : ℚ)), (1, 0), (2, 0)]).length ≤
        (simplifyStage 0 [((0 : ℚ), (0 : ℚ)), (1, 0), (2, 0)]).length
    ∧ (adaptivePointReduction [((0 : ℚ), (0 : ℚ)), (1, 0), (2, 0)] 1).length ≤
        (adaptivePointReduction [((0 : ℚ), (0 : ℚ)), (1, 0), (2, 0)] 0).length
    :=
  ⟨le_refl 0, by norm_num,
    (simplify_monotone_point_count [((0 : ℚ), (0 : ℚ)), (1, 0), (2, 0)] 0 1
      (le_refl 0) (by norm_num)).1,
    (simplify_monotone_point_count [((0 : ℚ), (0 : ℚ)), (1, 0), (2, 0)] 0 1
      (le_refl 0) (by norm_num)).2⟩

/-- C1: the scale factor is `targetDimension / imagePixelWidth` when the axis
is WIDTH and `targetDimension / imagePixelHeight` when it is HEIGHT — derived
from the full image dimension only, never from the polygon's bounding box —
and every point has both coordinates multiplied by this same factor. -/
theorem scale_factor_from_image_dimension (w h : ℚ) (imageWidth imageHeight : ℕ)
    (axis : DimAxis) (contour : List Point) (hne : contour ≠ []) :
    scaleCallSite w h imageWidth imageHeight axis contour =
      contour.map (fun p =>
        (p.1 * (match axis with
                | .width => w / (imageWidth : ℚ)
                | .height => h / (imageHeight : ℚ)),
         p.2 * (match axis with
                | .width => w / (imageWidth : ℚ)
                | .height => h / (imageHeight : ℚ)))) := by
  cases axis <;> simp [scaleCallSite, scaleContour, hne]

/-- Witness for `scale_factor_from_image_dimension`: a concrete one-point
polygon scaled with axis WIDTH, target 2 and image width 4. -/
theorem scale_factor_from_image_dimension_witness :
    scaleCallSite 2 3 4 5 .width [(1, 1)] = [(1 / 2, 1 / 2)] := by
  have := scale_factor_from_image_dimension 2 3 4 5 .width [(1, 1)]
    (by decide)
  rw [this]; norm_num

/-- C9: the perpendicular-distance computation is total — its division is
never a division by zero because the zero-length case (`lenSq === 0`) is
guarded before the division — and on a zero-length reference segment it
returns the plain distance `Math.sqrt(A*A + B*B)` to the segment start. -/
theorem perpendicular_distance_total (point lineStart lineEnd : Point) :
    getPerpendicularDistanceChecked point lineStart lineEnd =
      some (getPerpendicularDistance point lineStart lineEnd)
    ∧ getPerpendicularDistance point lineStart lineStart =
      .sqrtOf ((point.1 - lineStart.1) * (point.1 - lineStart.1) +
               (point.2 - lineStart.2) * (point.2 - lineStart.2)) := by
  constructor
  · by_cases hz :
      (lineEnd.1 - lineStart.1) * (lineEnd.1 - lineStart.1) +
        (lineEnd.2 - lineStart.2) * (lineEnd.2 - lineStart.2) = 0
    · simp [getPerpendicularDistanceChecked, getPerpendicularDistance, hz]
    · simp [getPerpendicularDistanceChecked, getPerpendicularDistance, hz,
        checkedDiv]
  · simp [getPerpendicularDistance]

end SnagToDxf
